import Mathlib

set_option maxRecDepth 10000

/-!
Shallow embedding of `src/static/js/script.js` (the `SearchApp` class of the
ydb-vector-search-demo front end), together with theorems checking the
natural-language specification against it.

Conventions of the embedding:
* JavaScript strings are modelled by `String` / `List Char` (the source only
  manipulates them per UTF-16 unit, which coincides with per-character for the
  operations used here).
* JavaScript numbers are modelled by exact rationals (`ℚ`); every arithmetic
  operation performed by the source on scores is exact at the precision the
  spec talks about, and the one constant comparison (`maxLength * 0.8` with
  `maxLength = 300`) is exact in binary floating point as well, so the
  rational model agrees with IEEE doubles on everything stated below.
* The DOM is modelled as a record of the fields the class reads and writes;
  `classList.add/remove("hidden")` becomes a `Bool` field per section.
* `fetch`/`response.json()` are suspension points; a whole run of
  `performSearch` is modelled as a function of the state at entry plus the
  outcome of the awaited network interaction (`FetchOutcome`).
* Animation timers, `console.log`, `scrollIntoView` and focus handling have no
  bearing on any modelled field and are not represented.
-/

/-- JavaScript truthiness of a possibly-absent string: `undefined`/`null` and
the empty string are falsy, every other string is truthy. -/
def jsTruthyStr (o : Option String) : Bool :=
  match o with
  | none => false
  | some s => s != ""

/-- JavaScript `String.prototype.trim`, working on the character list
(the source only ever trims ASCII input; `Char.isWhitespace` covers the
whitespace the spec and claims mention). -/
def jsTrim (s : String) : String :=
  String.mk (((s.data.dropWhile Char.isWhitespace).reverse.dropWhile
    Char.isWhitespace).reverse)

/-- JavaScript `String.prototype.includes` on character lists. -/
def jsIncludes (pat : List Char) (l : List Char) : Bool :=
  l.tails.any (fun t => pat.isPrefixOf t)

/-- Per-character action of the HTML escaper defined inline in `formatText`
and `formatSummary` (script.js lines 174–181 and 248–255).  The source runs
five sequential global `String.prototype.replace` calls (ampersand, less
than, greater than, double quote, apostrophe, in that order); since no
replacement string contains a character that a
later stage replaces, the chain equals this single per-character map. -/
def escChar (c : Char) : String :=
  if c = '&' then "&amp;"
  else if c = '<' then "&lt;"
  else if c = '>' then "&gt;"
  else if c = '"' then "&quot;"
  else if c = Char.ofNat 39 then "&#039;"
  else String.singleton c

/-- Character-list form of the inline escaper. -/
def escapeHtmlList (l : List Char) : List Char :=
  l.flatMap (fun c => (escChar c).data)

/-- The HTML escaper defined inline in `formatText` and `formatSummary`. -/
def escapeHtmlInline (s : String) : String :=
  String.mk (escapeHtmlList s.data)

/-- Per-character action of the method `SearchApp.escapeHtml` (script.js
lines 349–353).  That method round-trips the string through a detached
`div` via `textContent`/`innerHTML`; per the HTML fragment-serialization
algorithm a text node escapes exactly `&`, U+00A0, `<` and `>` — double
quotes pass through unchanged. -/
def escCharDom (c : Char) : String :=
  if c = '&' then "&amp;"
  else if c = Char.ofNat 160 then "&nbsp;"
  else if c = '<' then "&lt;"
  else if c = '>' then "&gt;"
  else String.singleton c

/-- Character-list form of the DOM-based escaper. -/
def escapeHtmlDomList (l : List Char) : List Char :=
  l.flatMap (fun c => (escCharDom c).data)

/-- The method `SearchApp.escapeHtml` (DOM-based escaping). -/
def escapeHtml (s : String) : String :=
  String.mk (escapeHtmlDomList s.data)

/-- The entity bodies that may follow an ampersand in escaper output. -/
def entityTails : List (List Char) :=
  [['a', 'm', 'p', ';'], ['l', 't', ';'], ['g', 't', ';'],
   ['q', 'u', 'o', 't', ';'], ['#', '0', '3', '9', ';'],
   ['n', 'b', 's', 'p', ';']]

/-- Whether the characters at the front of `r` spell one of the known
entity bodies. -/
def entityAt (r : List Char) : Bool :=
  entityTails.any (fun e => e.isPrefixOf r)

/-- Every ampersand in the list starts a known character entity: the sense
in which `&` is "encoded as an entity" in escaper output. -/
def ampOk : List Char → Bool
  | [] => true
  | c :: r => (if c = '&' then entityAt r else true) && ampOk r

/-- Markup emitted for a maximal run of `n` newlines by the two regex
replaces in `formatText`: newline runs to `</p><p>`, then `\n` to `<br>`. -/
def emitBreaks (n : ℕ) : String :=
  if n = 0 then "" else if n = 1 then "<br>" else "</p><p>"

/-- One step of the right fold that performs the two newline regex replaces
of `formatText`: pending newline count plus formatted remainder. -/
def fmtNlStep (c : Char) (st : ℕ × String) : ℕ × String :=
  if c = '\n' then (st.1 + 1, st.2)
  else (0, String.singleton c ++ emitBreaks st.1 ++ st.2)

/-- The two newline regex replaces of `formatText`: each maximal run of two
or more newlines becomes `</p><p>`, each remaining single newline `<br>`. -/
def fmtNl (l : List Char) : String :=
  let st := l.foldr fmtNlStep (0, "")
  emitBreaks st.1 ++ st.2

/-- `SearchApp.formatText` (script.js lines 246–271): escape, replace newline
runs, and wrap in a paragraph when a paragraph break was produced. -/
def formatText (text : String) : String :=
  let escapedText := escapeHtmlInline text
  let formattedText := fmtNl escapedText.data
  if jsIncludes "</p><p>".data formattedText.data then
    "<p>" ++ formattedText ++ "</p>"
  else formattedText

/-- JavaScript `summary.split` at the two-newline separator, on character
lists: split at each
non-overlapping occurrence of two consecutive newlines, scanning left to
right. -/
def splitTwoNl : List Char → List (List Char)
  | [] => [[]]
  | [c] => [[c]]
  | c :: c2 :: rest =>
    if c = '\n' ∧ c2 = '\n' then [] :: splitTwoNl rest
    else
      match splitTwoNl (c2 :: rest) with
      | [] => [[c]]
      | h :: t => (c :: h) :: t

/-- The newline-to-`<br>` replace used on each summary paragraph. -/
def nlToBr (s : String) : String :=
  String.join (s.data.map (fun c => if c = '\n' then "<br>" else String.singleton c))

/-- `SearchApp.formatSummary` (script.js lines 172–196). -/
def formatSummary (summary : String) : String :=
  let escapedText := escapeHtmlInline summary
  let paragraphs := ((splitTwoNl escapedText.data).map String.mk).filter
    (fun p => jsTrim p != "")
  String.join (paragraphs.map (fun p => "<p>" ++ nlToBr (jsTrim p) ++ "</p>"))

/-- JavaScript `truncated.lastIndexOf(' ')`: index of the last space
character, `-1` when there is none. -/
def lastIndexOfSpace (l : List Char) : ℤ :=
  match l.reverse.findIdx? (fun c => c = ' ') with
  | some i => (l.length : ℤ) - 1 - (i : ℤ)
  | none => -1

/-- `SearchApp.truncateText` (script.js lines 273–287).  The source compares
`lastSpaceIndex > maxLength * 0.8`; the comparison is written here with
cleared denominators (`10 * i > 8 * maxLength`), which is exact, and for the
only call site `maxLength = 300` the floating-point product `300 * 0.8` is
exactly `240` as well. -/
def truncateText (text : String) (maxLength : ℕ) : String :=
  if text.length ≤ maxLength then text
  else
    let truncated := String.mk (text.data.take maxLength)
    let lastSpaceIndex := lastIndexOfSpace truncated.data
    if 10 * lastSpaceIndex > 8 * (maxLength : ℤ) then
      String.mk (truncated.data.take lastSpaceIndex.toNat) ++ "..."
    else truncated ++ "..."

/-- Round a non-negative exact fraction `a / b` (with `b > 0`) to the nearest
integer, half away from zero: the tie-breaking rule of ECMAScript `toFixed`
and `toExponential` ("if there are two such n, pick the larger n"). -/
def roundHalfUpInt (a b : ℤ) : ℤ :=
  Int.fdiv (2 * a + b) (2 * b)

/-- Left-pad a digit string with zeros to the requested width. -/
def padZeros (d : ℕ) (s : String) : String :=
  String.mk (List.replicate (d - s.length) '0') ++ s

/-- Model of ECMAScript `Number.prototype.toFixed(d)` for the non-negative
exact values the score formatter feeds it (`d` is 2 or 3 here, never 0). -/
def jsToFixed (d : ℕ) (q : ℚ) : String :=
  let n := (roundHalfUpInt (q.num * 10 ^ d) (q.den : ℤ)).toNat
  toString (n / 10 ^ d) ++ "." ++ padZeros d (toString (n % 10 ^ d))

/-- Fuel-bounded search for the base-10 exponent of `num / den ≥ 1`: the
greatest `e` with `10 ^ e ≤ num / den`, starting the scan at `k`. -/
def expUpAux (num den : ℤ) : ℕ → ℕ → ℕ
  | 0, k => k
  | fuel + 1, k =>
    if num < den * 10 ^ (k + 1) then k else expUpAux num den fuel (k + 1)

/-- Fuel-bounded search for the base-10 exponent of `0 < num / den < 1`: the
least `k` with `den ≤ num * 10 ^ k`, starting the scan at `k`. -/
def expDownAux (num den : ℤ) : ℕ → ℕ → ℕ
  | 0, k => k
  | fuel + 1, k =>
    if den ≤ num * 10 ^ k then k else expDownAux num den fuel (k + 1)

/-- Render a two-fractional-digit mantissa `m` (scaled by 100) and exponent
`e` the way `toExponential(2)` prints them, e.g. `5.00e-4`. -/
def expRender (m e : ℤ) : String :=
  let p := if m ≥ 1000 then ((100 : ℤ), e + 1) else (m, e)
  toString (p.1 / 100) ++ "." ++ padZeros 2 (toString (p.1 % 100)) ++ "e" ++
    (if p.2 < 0 then "-" ++ toString (-p.2) else "+" ++ toString p.2)

/-- Model of ECMAScript `Number.prototype.toExponential(2)` for the
non-negative exact values the score formatter feeds it. -/
def jsToExponential2 (q : ℚ) : String :=
  if q ≤ 0 then "0.00e+0"
  else if 1 ≤ q then
    let e := expUpAux q.num (q.den : ℤ) (q.num.natAbs + 1) 0
    expRender (roundHalfUpInt (q.num * 100) ((q.den : ℤ) * 10 ^ e)) (e : ℤ)
  else
    let k := expDownAux q.num (q.den : ℤ) (q.den + 1) 1
    expRender (roundHalfUpInt (q.num * 100 * 10 ^ k) (q.den : ℤ)) (-(k : ℤ))

/-- `SearchApp.formatScore` (script.js lines 289–298). -/
def formatScore (score : ℚ) : String :=
  if score < mkRat 1 1000 then jsToExponential2 score
  else if score < 1 then jsToFixed 3 score
  else jsToFixed 2 score

/-- `result.metadata` shape: optional breadcrumb headings plus an optional
pointer to the source document. -/
structure ResultMetadata where
  h1 : Option String
  h2 : Option String
  h3 : Option String
  source_path : Option String
deriving DecidableEq

/-- One element of the `results` array of a search response. -/
structure SearchResult where
  content : String
  score : Option ℚ
  metadata : Option ResultMetadata
deriving DecidableEq

/-- Parsed body of a `/search` response. -/
structure SearchData where
  success : Bool
  results : List SearchResult
  summary : Option String
  error : Option String
deriving DecidableEq

/-- `SearchApp.generateSourceLink` (script.js lines 355–370). -/
def generateSourceLink (metadata : Option ResultMetadata) : Option String :=
  match metadata with
  | none => none
  | some md =>
    match md.source_path with
    | none => none
    | some source => if source = "" then none
        else some ("https://yandex.ru/support/market/ru/" ++ source)

/-- The headings a metadata record contributes to `breadcrumbParts`, i.e.
those that are JavaScript-truthy, in the fixed order h1, h2, h3. -/
def optPart (o : Option String) : List String :=
  match o with
  | none => []
  | some s => if s = "" then [] else [s]

/-- The `breadcrumbParts` array built by `generateBreadcrumbs`. -/
def breadcrumbParts (md : ResultMetadata) : List String :=
  optPart md.h1 ++ optPart md.h2 ++ optPart md.h3

/-- The visual separator joined between breadcrumb segments. -/
def breadcrumbSeparator : String :=
  "<i class=\"fas fa-chevron-right breadcrumb-separator\"></i>"

/-- CSS class of the breadcrumb segment at (0-based) position `i`. -/
def breadcrumbClass (i : ℕ) : String :=
  "breadcrumb-item breadcrumb-h" ++ toString (i + 1)

/-- Markup of a hyperlinked (last) breadcrumb segment. -/
def breadcrumbAnchor (link : String) (i : ℕ) (part : String) : String :=
  "<a href=\"" ++ link ++ "\" target=\"_blank\" class=\"" ++ breadcrumbClass i ++
    " breadcrumb-link\" title=\"Открыть источник\">" ++ escapeHtml part ++
    "<i class=\"fas fa-external-link-alt\"></i></a>"

/-- Markup of a plain-text breadcrumb segment. -/
def breadcrumbSpan (i : ℕ) (part : String) : String :=
  "<span class=\"" ++ breadcrumbClass i ++ "\">" ++ escapeHtml part ++ "</span>"

/-- Markup of the standalone "open source" link used when no heading is
present but a source link resolved. -/
def openSourceLinkHtml (link : String) : String :=
  "<a href=\"" ++ link ++ "\" target=\"_blank\" class=\"source-link-main\" title=\"Открыть источник\"><i class=\"fas fa-external-link-alt\"></i>Открыть источник</a>"

/-- The segment renderer mapped over `breadcrumbParts` (the
`if (sourceLink && isLast)` body of `generateBreadcrumbs`). -/
def renderSegment (sourceLink : Option String) (total i : ℕ) (part : String) :
    String :=
  match sourceLink with
  | some link => if i = total - 1 then breadcrumbAnchor link i part
      else breadcrumbSpan i part
  | none => breadcrumbSpan i part

/-- `SearchApp.generateBreadcrumbs` (script.js lines 300–347). -/
def generateBreadcrumbs (metadata : Option ResultMetadata)
    (sourceLink : Option String) : Option String :=
  match metadata with
  | none => none
  | some md =>
    let parts := breadcrumbParts md
    if parts.isEmpty then
      match sourceLink with
      | some link => some (openSourceLinkHtml link)
      | none => none
    else
      some (String.intercalate breadcrumbSeparator
        (parts.enum.map (fun p => renderSegment sourceLink parts.length p.1 p.2)))

/-- The score badge fragment of `createResultElement` (rendered only when
`result.score !== undefined`). -/
def scoreBadge (score : Option ℚ) : String :=
  match score with
  | none => ""
  | some sc =>
    "<div class=\"result-score\" title=\"Оценка релевантности (чем меньше, тем лучше)\"><i class=\"fas fa-chart-line\"></i><span class=\"score-value\">" ++
      formatScore sc ++ "</span></div>"

/-- The breadcrumbs fragment of `createResultElement` (the region is present
only when `generateBreadcrumbs` returned markup). -/
def breadcrumbRegion (breadcrumbs : Option String) : String :=
  match breadcrumbs with
  | none => ""
  | some b => "<div class=\"result-breadcrumbs\">" ++ b ++ "</div>"

/-- `SearchApp.createResultElement` (script.js lines 198–244): the innerHTML
assigned to the result item (insignificant template whitespace elided; the
1-based `number` is used by the source only for logging and animation
delay). -/
def createResultElement (result : SearchResult) (number : ℕ) : String :=
  let _ := number
  let sourceLink := generateSourceLink result.metadata
  let breadcrumbs := generateBreadcrumbs result.metadata sourceLink
  "<div class=\"result-top\">" ++ breadcrumbRegion breadcrumbs ++
    scoreBadge result.score ++ "</div><div class=\"result-content\">" ++
    formatText (truncateText result.content 300) ++ "</div>"

/-- The DOM fields the class reads and writes.  A `…Hidden` flag is `true`
exactly when the section carries the `hidden` CSS class. -/
structure Dom where
  loadingSpinnerHidden : Bool
  resultsContainerHidden : Bool
  summarySectionHidden : Bool
  noResultsHidden : Bool
  errorMessageHidden : Bool
  summaryContent : String
  resultsCount : String
  resultsList : List String
  errorText : String
deriving DecidableEq

/-- `SearchApp.hideAllSections` (script.js lines 378–384). -/
def hideAllSections (d : Dom) : Dom :=
  { d with
    loadingSpinnerHidden := true
    resultsContainerHidden := true
    summarySectionHidden := true
    noResultsHidden := true
    errorMessageHidden := true }

/-- `SearchApp.displaySummary` (script.js lines 155–170; the entrance
animation touches only style fields outside the model). -/
def displaySummary (d : Dom) (summary : String) : Dom :=
  { d with summaryContent := formatSummary summary, summarySectionHidden := false }

/-- The `if (data.summary) this.displaySummary(data.summary)` step of
`displayResults` (JavaScript truthiness: absent and empty summaries are
skipped). -/
def applySummary (d : Dom) (summary : Option String) : Dom :=
  match summary with
  | some s => if s = "" then d else displaySummary d s
  | none => d

/-- `SearchApp.displayResults` (script.js lines 124–153; `scrollIntoView`
has no modelled effect). -/
def displayResults (d : Dom) (data : SearchData) : Dom :=
  let d := hideAllSections d
  if data.results.length = 0 then { d with noResultsHidden := false }
  else
    let d := applySummary d data.summary
    { d with
      resultsCount := toString data.results.length
      resultsList := data.results.enum.map
        (fun p => createResultElement p.2 (p.1 + 1))
      resultsContainerHidden := false }

/-- A page URL: origin, path and the ordered list of query parameters. -/
structure UrlModel where
  origin : String
  pathname : String
  params : List (String × String)
deriving DecidableEq

/-- `URLSearchParams.set`: overwrite the value at the first occurrence of the
key (keeping its position), delete any further occurrences, or append the
pair at the end when the key is absent. -/
def setParam : List (String × String) → String → String → List (String × String)
  | [], k, v => [(k, v)]
  | p :: rest, k, v =>
    if p.1 == k then (k, v) :: rest.filter (fun r => r.1 != k)
    else p :: setParam rest k v

/-- `URLSearchParams.delete`. -/
def deleteParam (ps : List (String × String)) (k : String) :
    List (String × String) :=
  ps.filter (fun r => r.1 != k)

/-- `URLSearchParams.get`: value of the first occurrence, if any. -/
def getParam (u : UrlModel) (k : String) : Option String :=
  (u.params.find? (fun p => p.1 == k)).map (fun p => p.2)

/-- `SearchApp.getShareableUrl` (script.js lines 414–419): a fresh URL from
origin + pathname only, with `q` as its sole parameter. -/
def getShareableUrl (u : UrlModel) (query : String) : UrlModel :=
  { origin := u.origin, pathname := u.pathname, params := setParam [] "q" query }

/-- Whole application state: DOM, input field, in-flight flag, current URL,
history entries pushed so far, and the log of issued `/search` requests. -/
structure AppState where
  dom : Dom
  searchInputValue : String
  inputDisabled : Bool
  buttonDisabled : Bool
  buttonHtml : String
  isSearching : Bool
  url : UrlModel
  historyLog : List (UrlModel × String)
  requests : List String
  shareButtonHidden : Bool
deriving DecidableEq

/-- `SearchApp.showError` (script.js lines 372–376). -/
def showError (s : AppState) (message : String) : AppState :=
  let d := hideAllSections s.dom
  { s with dom := { d with errorText := message, errorMessageHidden := false } }

/-- `SearchApp.showLoading` (script.js lines 115–118). -/
def showLoading (s : AppState) : AppState :=
  let d := hideAllSections s.dom
  { s with dom := { d with loadingSpinnerHidden := false } }

/-- `SearchApp.hideLoading` (script.js lines 120–122). -/
def hideLoading (s : AppState) : AppState :=
  let d := s.dom
  { s with dom := { d with loadingSpinnerHidden := true } }

/-- `SearchApp.disableSearch` (script.js lines 464–471). -/
def disableSearch (s : AppState) : AppState :=
  { s with
    buttonDisabled := true
    inputDisabled := true
    buttonHtml := "<div class=\"spinner\" style=\"width: 16px; height: 16px; border-width: 2px;\"></div><span>Поиск...</span>" }

/-- `SearchApp.enableSearch` (script.js lines 473–480). -/
def enableSearch (s : AppState) : AppState :=
  { s with
    buttonDisabled := false
    inputDisabled := false
    buttonHtml := "<i class=\"fas fa-search\"></i><span>Поиск</span>" }

/-- `SearchApp.updateUrl` (script.js lines 390–401): set or delete the `q`
parameter of a copy of the current location and push it as a history entry
whose state payload carries the query. -/
def updateUrl (s : AppState) (query : String) : AppState :=
  let url := if query != "" then
      { s.url with params := setParam s.url.params "q" query }
    else { s.url with params := deleteParam s.url.params "q" }
  { s with url := url, historyLog := s.historyLog ++ [(url, query)] }

/-- Outcome of the awaited `fetch` + `response.json()` pair:
transport rejection, body-parse rejection, or a parsed body together with
`response.ok`. -/
inductive FetchOutcome where
  | netError (msg : String)
  | parseError (msg : String)
  | ok (httpOk : Bool) (data : SearchData)
deriving DecidableEq

/-- `data.error || fallback`: the service message when truthy, else the
default. -/
def jsErrOr (o : Option String) (fallback : String) : String :=
  match o with
  | none => fallback
  | some e => if e = "" then fallback else e

/-- The `try` block of `performSearch` after the request was issued
(script.js lines 91–107): HTTP failure and `success:false` raise the service
error (or a default), thrown errors surface their message, success renders
the results and reveals the share button. -/
def handleOutcome (s : AppState) (outcome : FetchOutcome) : AppState :=
  match outcome with
  | .netError msg => showError s msg
  | .parseError msg => showError s msg
  | .ok httpOk data =>
    if !httpOk then showError s (jsErrOr data.error "Произошла ошибка при поиске")
    else if data.success then
      { s with dom := displayResults s.dom data, shareButtonHidden := false }
    else showError s (jsErrOr data.error "Неизвестная ошибка")

/-- The `finally` block of `performSearch` (script.js lines 108–112). -/
def finallyCleanup (s : AppState) : AppState :=
  enableSearch (hideLoading { s with isSearching := false })

/-- The effective query of `performSearch`:
`queryFromUrl || this.searchInput.value.trim()`. -/
def effectiveQuery (s : AppState) (queryFromUrl : Option String) : String :=
  match queryFromUrl with
  | none => jsTrim s.searchInputValue
  | some u => if u = "" then jsTrim s.searchInputValue else u

/-- `SearchApp.performSearch` (script.js lines 58–113), as a function of the
state at entry and the outcome of the awaited network interaction. -/
def performSearch (s : AppState) (queryFromUrl : Option String)
    (outcome : FetchOutcome) : AppState :=
  let query := effectiveQuery s queryFromUrl
  if query = "" then showError s "Пожалуйста, введите запрос для поиска"
  else if s.isSearching then s
  else
    let s1 := if jsTruthyStr queryFromUrl then { s with searchInputValue := query }
      else s
    let s2 := updateUrl s1 query
    let s3 := { s2 with isSearching := true }
    let s4 := disableSearch (showLoading s3)
    let s5 := { s4 with requests := s4.requests ++ [query] }
    finallyCleanup (handleOutcome s5 outcome)

/-- A DOM snapshot used by the concrete states below. -/
def witnessDom : Dom :=
  ⟨true, true, true, true, true, "", "", [], ""⟩

/-- A state with a search in flight, the field holding `"new"`, and the URL
still carrying the previously submitted query `"old"`. -/
def busyState : AppState :=
  ⟨witnessDom, "new", true, true, "", true,
    ⟨"https://example.test", "/", [("q", "old")]⟩, [], ["old"], true⟩

/-- An idle state with an empty input field and a parameter-free URL. -/
def idleState : AppState :=
  ⟨witnessDom, "", false, false, "", false,
    ⟨"https://example.test", "/", []⟩, [], [], true⟩

/-- A state whose URL carries several query parameters besides `q`. -/
def multiParamState : AppState :=
  ⟨witnessDom, "", false, false, "", false,
    ⟨"https://example.test", "/search",
      [("lang", "ru"), ("q", "old"), ("page", "2")]⟩, [], [], true⟩

/-- A 301-character string whose last space sits at position 250. -/
def c6exA : String := String.mk (List.replicate 250 'a' ++ ' ' :: List.replicate 50 'b')

/-- A 301-character string whose last space sits at position exactly 240. -/
def c6exB : String := String.mk (List.replicate 240 'a' ++ ' ' :: List.replicate 60 'b')

/-- A sample search result exercising every feature of the item builder. -/
def sampleResult : SearchResult :=
  ⟨"пример текста", some (mkRat 5 2), some ⟨some "A", none, some "C", some "doc"⟩⟩

/-- A sample successful response with one result and a summary. -/
def sampleData : SearchData := ⟨true, [sampleResult], some "итог", none⟩

/-! ### Helper lemmas about the embedded operations -/

/-- `handleOutcome` never touches the in-flight flag. -/
theorem handleOutcome_isSearching (x : AppState) (o : FetchOutcome) :
    (handleOutcome x o).isSearching = x.isSearching := by
  cases o with
  | netError m => rfl
  | parseError m => rfl
  | ok httpOk data =>
    simp only [handleOutcome]
    split
    · rfl
    · split <;> rfl

/-- `handleOutcome` never touches the current URL. -/
theorem handleOutcome_url (x : AppState) (o : FetchOutcome) :
    (handleOutcome x o).url = x.url := by
  cases o with
  | netError m => rfl
  | parseError m => rfl
  | ok httpOk data =>
    simp only [handleOutcome]
    split
    · rfl
    · split <;> rfl

/-- `handleOutcome` never issues a further request. -/
theorem handleOutcome_requests (x : AppState) (o : FetchOutcome) :
    (handleOutcome x o).requests = x.requests := by
  cases o with
  | netError m => rfl
  | parseError m => rfl
  | ok httpOk data =>
    simp only [handleOutcome]
    split
    · rfl
    · split <;> rfl

/-- The `finally` block always leaves the session idle, the spinner hidden
and the controls enabled, whatever state the `try`/`catch` produced. -/
theorem finallyCleanup_spec (x : AppState) :
    (finallyCleanup x).isSearching = false ∧
    (finallyCleanup x).dom.loadingSpinnerHidden = true ∧
    (finallyCleanup x).inputDisabled = false ∧
    (finallyCleanup x).buttonDisabled = false := by
  refine ⟨rfl, rfl, rfl, rfl⟩

/-- `finallyCleanup` touches neither the URL nor the request log. -/
theorem finallyCleanup_url_requests (x : AppState) :
    (finallyCleanup x).url = x.url ∧ (finallyCleanup x).requests = x.requests :=
  ⟨rfl, rfl⟩

/-! ### C1: single-flight discipline -/

/-- C1.  Single-flight discipline: when a prior session is in flight
(`isSearching = true`) and the effective query is non-empty,
`performSearch` is a no-op — the state is returned unchanged (hence no URL
update and no UI change), and in particular the request log does not grow,
whatever the network outcome parameter would have been. -/
theorem c1_single_flight (s : AppState) (q : Option String) (o : FetchOutcome)
    (hq : effectiveQuery s q ≠ "") (hbusy : s.isSearching = true) :
    performSearch s q o = s ∧ (performSearch s q o).requests = s.requests := by
  have h : performSearch s q o = s := by
    unfold performSearch
    simp [hq, hbusy]
  exact ⟨h, by rw [h]⟩

theorem c1_single_flight_witness :
    performSearch busyState (some "другой") (.netError "boom") = busyState ∧
    (performSearch busyState (some "другой") (.netError "boom")).requests =
      busyState.requests :=
  c1_single_flight busyState (some "другой") (.netError "boom")
    (by decide) (by decide)

/-! ### C5: guaranteed cleanup -/

/-- An accepted call runs the whole `try`/`catch`/`finally`: it is
`finallyCleanup` of `handleOutcome` of some intermediate state. -/
theorem performSearch_accepted (s : AppState) (q : Option String)
    (o : FetchOutcome) (hq : effectiveQuery s q ≠ "")
    (hidle : s.isSearching = false) :
    ∃ x, performSearch s q o = finallyCleanup (handleOutcome x o) ∧
      x.url = { s.url with
        params := setParam s.url.params "q" (effectiveQuery s q) } ∧
      x.requests = s.requests ++ [effectiveQuery s q] := by
  have hbne : (effectiveQuery s q != "") = true := by
    simp [bne_iff_ne, hq]
  unfold performSearch
  simp only [if_neg hq, hidle, Bool.false_eq_true, if_false]
  by_cases hj : jsTruthyStr q = true
  · rw [if_pos hj]
    refine ⟨_, rfl, ?_, rfl⟩
    simp only [updateUrl, hbne, if_true]
    rfl
  · rw [if_neg hj]
    refine ⟨_, rfl, ?_, rfl⟩
    simp only [updateUrl, hbne, if_true]
    rfl

/-- C5.  Guaranteed cleanup: every accepted search (non-empty effective
query, no session in flight at entry) ends — on success, API-reported
failure, and thrown network/parse errors alike — with the in-flight flag
reset, the loading spinner hidden, and both search controls re-enabled. -/
theorem c5_guaranteed_cleanup (s : AppState) (q : Option String)
    (o : FetchOutcome) (hq : effectiveQuery s q ≠ "")
    (hidle : s.isSearching = false) :
    (performSearch s q o).isSearching = false ∧
    (performSearch s q o).dom.loadingSpinnerHidden = true ∧
    (performSearch s q o).inputDisabled = false ∧
    (performSearch s q o).buttonDisabled = false := by
  obtain ⟨x, hx, -, -⟩ := performSearch_accepted s q o hq hidle
  rw [hx]
  exact finallyCleanup_spec _

theorem c5_guaranteed_cleanup_witness :
    (performSearch idleState (some "q1") (.parseError "bad json")).isSearching = false ∧
    (performSearch idleState (some "q1") (.parseError "bad json")).dom.loadingSpinnerHidden = true ∧
    (performSearch idleState (some "q1") (.parseError "bad json")).inputDisabled = false ∧
    (performSearch idleState (some "q1") (.parseError "bad json")).buttonDisabled = false :=
  c5_guaranteed_cleanup idleState (some "q1") (.parseError "bad json")
    (by decide) (by decide)

/-! ### C4: empty-query validation, C3: URL synchronization -/

/-- A call whose effective query is empty renders the validation error and
stops. -/
theorem performSearch_emptyRejected (s : AppState) (q : Option String)
    (o : FetchOutcome) (h : effectiveQuery s q = "") :
    performSearch s q o = showError s "Пожалуйста, введите запрос для поиска" := by
  unfold performSearch
  simp [h]

/-- A call arriving while a session is in flight returns the state
unchanged. -/
theorem performSearch_busyDropped (s : AppState) (q : Option String)
    (o : FetchOutcome) (hq : effectiveQuery s q ≠ "")
    (hbusy : s.isSearching = true) : performSearch s q o = s := by
  unfold performSearch
  simp [hq, hbusy]

/-- C4 (amended).  Validation: a call whose effective query — the explicit
argument when JavaScript-truthy, else the trimmed input field — is empty
renders the error state and issues no network request; but a
whitespace-only *URL-driven* argument is truthy, is not trimmed, and, when
no session is in flight, proceeds to issue a request (see the
counterexample). -/
theorem c4_empty_query_validation (s : AppState) (q : Option String)
    (o : FetchOutcome) :
    (effectiveQuery s q = "" →
      performSearch s q o = showError s "Пожалуйста, введите запрос для поиска" ∧
      (performSearch s q o).requests = s.requests ∧
      (performSearch s q o).dom.errorMessageHidden = false) ∧
    (∀ u, q = some u → u ≠ "" → s.isSearching = false →
      (performSearch s q o).requests = s.requests ++ [u]) := by
  constructor
  · intro h
    have h1 := performSearch_emptyRejected s q o h
    exact ⟨h1, by rw [h1]; rfl, by rw [h1]; rfl⟩
  · intro u hu hne hidle
    subst hu
    have heff : effectiveQuery s (some u) = u := by
      simp [effectiveQuery, hne]
    obtain ⟨x, hx, -, hreq⟩ :=
      performSearch_accepted s (some u) o (by rw [heff]; exact hne) hidle
    rw [hx, (finallyCleanup_url_requests _).2, handleOutcome_requests, hreq, heff]

theorem c4_empty_query_validation_witness :
    performSearch idleState none (.netError "x") =
      showError idleState "Пожалуйста, введите запрос для поиска" :=
  (((c4_empty_query_validation idleState none (.netError "x")).1) (by decide)).1

/-- C4, counterexample to the claim as stated: the whitespace-only
URL-driven query `" "` is not rejected — the request log grows by one entry
and no error state is rendered. -/
theorem c4_counterexample :
    (performSearch idleState (some " ")
      (.ok true ⟨true, [], none, none⟩)).requests = [" "] ∧
    (performSearch idleState (some " ")
      (.ok true ⟨true, [], none, none⟩)).dom.errorMessageHidden = true := by
  constructor <;> decide

/-- `URLSearchParams.set` makes `get` return the new value. -/
theorem find?_setParam (ps : List (String × String)) (k v : String) :
    (setParam ps k v).find? (fun p => p.1 == k) = some (k, v) := by
  induction ps with
  | nil => simp [setParam, List.find?]
  | cons p rest ih =>
    cases hb : (p.1 == k) with
    | true => simp [setParam, hb, List.find?]
    | false => simp [setParam, hb, List.find?, ih]

/-- C3 (amended).  URL synchronization: an *accepted* search (non-empty
effective query, no session in flight) rewrites the `q` parameter to the
submitted query before the request is issued, so afterwards — on success
and on every failure mode alike — the URL carries the submitted query; a
call rejected by validation or by the single-flight guard leaves the URL
unchanged (possibly stale, see the counterexample). -/
theorem c3_url_state (s : AppState) (q : Option String) (o : FetchOutcome) :
    (effectiveQuery s q ≠ "" → s.isSearching = false →
      getParam (performSearch s q o).url "q" = some (effectiveQuery s q)) ∧
    (effectiveQuery s q = "" ∨ s.isSearching = true →
      (performSearch s q o).url = s.url) := by
  constructor
  · intro hq hidle
    obtain ⟨x, hx, hurl, -⟩ := performSearch_accepted s q o hq hidle
    rw [hx, (finallyCleanup_url_requests _).1, handleOutcome_url, hurl]
    simp [getParam, find?_setParam]
  · intro h
    by_cases hq : effectiveQuery s q = ""
    · rw [performSearch_emptyRejected s q o hq]
      rfl
    · rcases h with h | h
      · exact absurd h hq
      · rw [performSearch_busyDropped s q o hq h]

theorem c3_url_state_witness :
    getParam (performSearch idleState (some "пример")
      (.ok true ⟨true, [], none, none⟩)).url "q" = some "пример" :=
  (c3_url_state idleState (some "пример")
    (.ok true ⟨true, [], none, none⟩)).1 (by decide) (by decide)

/-- C3, counterexample to the claim as stated: a non-empty query `"new"`
submitted while a session for `"old"` is in flight is dropped, and the URL
still carries `"old"` — neither the submitted query nor absent. -/
theorem c3_counterexample :
    effectiveQuery busyState none = "new" ∧
    getParam (performSearch busyState none (.netError "boom")).url "q" =
      some "old" ∧
    (some "old" : Option String) ≠ some "new" := by
  refine ⟨by decide, by decide, by decide⟩

/-! ### C10: frame effect of updateUrl vs getShareableUrl -/

/-- `URLSearchParams.set` leaves every parameter under a different key
untouched (same entries, same order). -/
theorem filter_setParam (ps : List (String × String)) (k v : String) :
    (setParam ps k v).filter (fun r => r.1 != k) =
      ps.filter (fun r => r.1 != k) := by
  induction ps with
  | nil => simp [setParam]
  | cons p rest ih =>
    cases hb : (p.1 == k) with
    | true =>
      have hpk : (p.1 != k) = false := by simp [bne, hb]
      simp only [setParam, hb, if_true, List.filter_cons, hpk,
        bne_self_eq_false, Bool.false_eq_true, if_false, List.filter_filter,
        Bool.and_self]
    | false =>
      have hpk : (p.1 != k) = true := by simp [bne, hb]
      simp only [setParam, hb, Bool.false_eq_true, if_false, List.filter_cons,
        hpk, if_true, ih]

/-- C10.  Frame effect: for a non-empty query, `updateUrl` rewrites only the
`q` parameter of the current page URL — origin, path and all other
parameters are preserved in the pushed history entry, whose state payload
carries the query — whereas `getShareableUrl` builds a URL from origin and
path alone, keeping only `q`. -/
theorem c10_update_url_frame (s : AppState) (query : String) (h : query ≠ "") :
    (updateUrl s query).url.origin = s.url.origin ∧
    (updateUrl s query).url.pathname = s.url.pathname ∧
    (updateUrl s query).url.params.filter (fun r => r.1 != "q") =
      s.url.params.filter (fun r => r.1 != "q") ∧
    getParam (updateUrl s query).url "q" = some query ∧
    (updateUrl s query).historyLog =
      s.historyLog ++ [((updateUrl s query).url, query)] ∧
    (getShareableUrl s.url query).params = [("q", query)] ∧
    (getShareableUrl s.url query).origin = s.url.origin ∧
    (getShareableUrl s.url query).pathname = s.url.pathname := by
  have hbne : (query != "") = true := by simp [bne_iff_ne, h]
  refine ⟨?_, ?_, ?_, ?_, ?_, ?_, rfl, rfl⟩ <;>
    simp [updateUrl, hbne, getParam, find?_setParam, filter_setParam,
      getShareableUrl, setParam]

theorem c10_update_url_frame_witness :
    (updateUrl multiParamState "шуба").url.params.filter (fun r => r.1 != "q") =
      multiParamState.url.params.filter (fun r => r.1 != "q") ∧
    getParam (updateUrl multiParamState "шуба").url "q" = some "шуба" ∧
    (getShareableUrl multiParamState.url "шуба").params = [("q", "шуба")] :=
  ⟨(c10_update_url_frame multiParamState "шуба" (by decide)).2.2.1,
   (c10_update_url_frame multiParamState "шуба" (by decide)).2.2.2.1,
   (c10_update_url_frame multiParamState "шуба" (by decide)).2.2.2.2.2.1⟩

/-! ### C6: truncation rule -/

/-- Let-free unfolding of `truncateText`. -/
theorem truncateText_eq (text : String) (maxLength : ℕ) :
    truncateText text maxLength =
      if text.length ≤ maxLength then text
      else if 10 * lastIndexOfSpace (text.data.take maxLength) >
          8 * (maxLength : ℤ) then
        String.mk ((text.data.take maxLength).take
          (lastIndexOfSpace (text.data.take maxLength)).toNat) ++ "..."
      else String.mk (text.data.take maxLength) ++ "..." := rfl

/-- C6 (amended).  Truncation rule at the limit 300: content of length at
most 300 is returned unchanged (no ellipsis); longer content is cut to its
first 300 characters and breaks at the last *space* character when that
space sits *strictly after* position 240 (80% of the limit), else is
hard-cut at 300; an ellipsis marker is appended exactly when truncation
occurred.  (The claimed "at or after 240" fails at exactly 240, and only
the space character, not general whitespace, is considered — see the
counterexample.) -/
theorem c6_truncation (text : String) :
    (text.length ≤ 300 → truncateText text 300 = text) ∧
    (300 < text.length →
      (lastIndexOfSpace (text.data.take 300) > 240 →
        truncateText text 300 = String.mk ((text.data.take 300).take
          (lastIndexOfSpace (text.data.take 300)).toNat) ++ "...") ∧
      (lastIndexOfSpace (text.data.take 300) ≤ 240 →
        truncateText text 300 = String.mk (text.data.take 300) ++ "...")) := by
  constructor
  · intro h
    rw [truncateText_eq, if_pos h]
  · intro hlen
    have hnot : ¬ text.length ≤ 300 := by omega
    constructor
    · intro hsp
      rw [truncateText_eq, if_neg hnot, if_pos (by push_cast; omega)]
    · intro hsp
      rw [truncateText_eq, if_neg hnot, if_neg (by push_cast; omega)]

theorem c6_truncation_witness :
    truncateText c6exA 300 = String.mk (List.replicate 250 'a') ++ "..." := by
  have h := ((c6_truncation c6exA).2 (by decide)).1 (by decide)
  exact h.trans (by decide)

/-- C6, counterexample to the claim as stated: the last space of this
301-character string falls exactly at position 240 — at 80% of the limit —
yet the code hard-cuts at 300 instead of breaking at the space, because the
source compares with strict `>`. -/
theorem c6_counterexample :
    c6exB.length = 301 ∧
    lastIndexOfSpace (c6exB.data.take 300) = 240 ∧
    truncateText c6exB 300 = String.mk (c6exB.data.take 300) ++ "..." ∧
    truncateText c6exB 300 ≠ String.mk (c6exB.data.take 240) ++ "..." := by
  refine ⟨by decide, by decide, by decide, by decide⟩

/-! ### C7: score formatting -/

/-- A string append with a non-empty right operand is non-empty. -/
theorem append_ne_empty_right (a b : String) (h : b.data ≠ []) :
    a ++ b ≠ "" := by
  intro hc
  apply h
  have hd := congrArg String.data hc
  rw [String.data_append] at hd
  exact (List.append_eq_nil.mp hd).2

/-- C7.  Score formatting: `formatScore` has exactly the three branches of
the source — scores below 0.001 go through `toExponential(2)`, scores in
[0.001, 1) through `toFixed(3)`, scores at least 1 through `toFixed(2)` —
with the spec's sample values 0.0005 ↦ "5.00e-4", 0.1234 ↦ "0.123",
2.5 ↦ "2.50"; and the score badge markup is produced exactly when a score
is present. -/
theorem c7_format_score :
    (∀ q : ℚ, q < mkRat 1 1000 → formatScore q = jsToExponential2 q) ∧
    (∀ q : ℚ, mkRat 1 1000 ≤ q → q < 1 → formatScore q = jsToFixed 3 q) ∧
    (∀ q : ℚ, 1 ≤ q → formatScore q = jsToFixed 2 q) ∧
    formatScore (mkRat 1 2000) = "5.00e-4" ∧
    formatScore (mkRat 1234 10000) = "0.123" ∧
    formatScore (mkRat 5 2) = "2.50" ∧
    (∀ sc : Option ℚ, scoreBadge sc = "" ↔ sc = none) := by
  refine ⟨?_, ?_, ?_, by decide, by decide, by decide, ?_⟩
  · intro q h
    unfold formatScore
    rw [if_pos h]
  · intro q h1 h2
    unfold formatScore
    rw [if_neg (not_lt.mpr h1), if_pos h2]
  · intro q h
    have h1 : ¬ q < mkRat 1 1000 :=
      not_lt.mpr (le_trans (by decide : mkRat 1 1000 ≤ 1) h)
    unfold formatScore
    rw [if_neg h1, if_neg (not_lt.mpr h)]
  · intro sc
    cases sc with
    | none => simp [scoreBadge]
    | some q =>
      constructor
      · intro h
        exact absurd h (append_ne_empty_right _ _ (by decide))
      · intro h
        cases h

theorem c7_format_score_witness :
    formatScore (mkRat 1234 10000) = jsToFixed 3 (mkRat 1234 10000) :=
  c7_format_score.2.1 (mkRat 1234 10000) (by decide) (by decide)

/-! ### C9: renderer idempotence -/

/-- C9.  Renderer idempotence: rendering the same response twice equals
rendering it once — each call hides all sections first and, when the result
list is non-empty, rebuilds the displayed list from the response alone
(full replacement, no appending), so the list shown never depends on what
was displayed before. -/
theorem c9_renderer_idempotent :
    (∀ d data, displayResults (displayResults d data) data = displayResults d data) ∧
    (∀ d d2 data, data.results ≠ [] →
      (displayResults d data).resultsList =
        data.results.enum.map (fun p => createResultElement p.2 (p.1 + 1)) ∧
      (displayResults d data).resultsList = (displayResults d2 data).resultsList) := by
  constructor
  · intro d data
    simp only [displayResults]
    by_cases h : data.results.length = 0
    · simp only [if_pos h]
      rfl
    · simp only [if_neg h]
      rcases hs : data.summary with _ | s
      · simp only [applySummary, hs]
        rfl
      · by_cases hse : s = ""
        · simp only [applySummary, hs, if_pos hse]
          rfl
        · simp only [applySummary, hs, if_neg hse, displaySummary]
          rfl
  · intro d d2 data h
    have h0 : ¬ data.results.length = 0 := by
      simpa [List.length_eq_zero] using h
    simp only [displayResults, if_neg h0]
    exact ⟨trivial, trivial⟩

theorem c9_renderer_idempotent_witness :
    (displayResults witnessDom sampleData).resultsList =
      sampleData.results.enum.map (fun p => createResultElement p.2 (p.1 + 1)) :=
  (c9_renderer_idempotent.2 witnessDom witnessDom sampleData (by decide)).1

/-! ### C8: breadcrumb derivation -/

/-- Mapping the segment renderer over an enumerated non-empty list of parts
renders every segment but the last as a plain span and exactly the last as
the source-link anchor. -/
theorem renderSegments_last (link : String) :
    ∀ (parts : List String) (k total : ℕ) (h : parts ≠ []),
      k + parts.length = total →
      (List.enumFrom k parts).map
        (fun p => renderSegment (some link) total p.1 p.2) =
      ((List.enumFrom k parts).map (fun p => breadcrumbSpan p.1 p.2)).dropLast
        ++ [breadcrumbAnchor link (total - 1) (parts.getLast h)] := by
  intro parts
  induction parts with
  | nil => intro k total h htot; exact absurd rfl h
  | cons a t ih =>
    intro k total h htot
    cases t with
    | nil =>
      have hk : k = total - 1 := by
        simp only [List.length_cons, List.length_nil] at htot
        omega
      simp [List.enumFrom, renderSegment, hk]
    | cons b t2 =>
      have hk : ¬ (k = total - 1) := by
        simp only [List.length_cons] at htot
        omega
      have htot2 : (k + 1) + (b :: t2).length = total := by
        simp only [List.length_cons] at htot ⊢
        omega
      have hmapne : (List.enumFrom (k + 1) (b :: t2)).map
          (fun p => breadcrumbSpan p.1 p.2) ≠ [] := by
        simp [List.enumFrom]
      rw [show List.enumFrom k (a :: b :: t2) =
            (k, a) :: List.enumFrom (k + 1) (b :: t2) from rfl,
        List.map_cons, List.map_cons,
        ih (k + 1) total (List.cons_ne_nil b t2) htot2,
        List.dropLast_cons_of_ne_nil hmapne]
      simp only [renderSegment, if_neg hk]
      simp [List.getLast_cons]

/-- C8.  Breadcrumb derivation: absent metadata yields no breadcrumb
region; metadata whose truthy headings (h1, h2, h3 in that fixed order) are
all absent yields the standalone "open source" link exactly when a source
link resolved and nothing otherwise; when at least one heading is present,
the segments are joined in that order by the separator, every segment but
the last is a plain span, and the last is hyperlinked to the source link
exactly when one exists; the spec's example `{h1:"A", h3:"C"}` gives the
two-segment trail A › C. -/
theorem c8_breadcrumbs :
    (∀ sl, generateBreadcrumbs none sl = none) ∧
    (∀ md sl, breadcrumbParts md = [] →
      generateBreadcrumbs (some md) sl = sl.map openSourceLinkHtml) ∧
    (∀ md link (h : breadcrumbParts md ≠ []),
      generateBreadcrumbs (some md) (some link) =
        some (String.intercalate breadcrumbSeparator
          (((breadcrumbParts md).enum.map
            (fun p => breadcrumbSpan p.1 p.2)).dropLast
            ++ [breadcrumbAnchor link ((breadcrumbParts md).length - 1)
              ((breadcrumbParts md).getLast h)]))) ∧
    (∀ md, breadcrumbParts md ≠ [] →
      generateBreadcrumbs (some md) none =
        some (String.intercalate breadcrumbSeparator
          ((breadcrumbParts md).enum.map (fun p => breadcrumbSpan p.1 p.2)))) ∧
    generateBreadcrumbs (some ⟨some "A", none, some "C", none⟩) none =
      some (breadcrumbSpan 0 "A" ++ breadcrumbSeparator ++ breadcrumbSpan 1 "C") := by
  refine ⟨fun sl => rfl, ?_, ?_, ?_, by decide⟩
  · intro md sl h
    cases sl <;> simp [generateBreadcrumbs, h]
  · intro md link h
    have hne : ¬ (breadcrumbParts md).isEmpty = true := by
      simpa [List.isEmpty_iff] using h
    simp only [generateBreadcrumbs, if_neg hne, List.enum]
    rw [renderSegments_last link (breadcrumbParts md) 0
      (breadcrumbParts md).length h (by omega)]
  · intro md h
    have hne : ¬ (breadcrumbParts md).isEmpty = true := by
      simpa [List.isEmpty_iff] using h
    simp only [generateBreadcrumbs, if_neg hne, renderSegment]

theorem c8_breadcrumbs_witness :
    generateBreadcrumbs (some ⟨none, none, none, some "doc"⟩)
      (some "https://yandex.ru/support/market/ru/doc") =
    (some "https://yandex.ru/support/market/ru/doc").map openSourceLinkHtml :=
  c8_breadcrumbs.2.1 ⟨none, none, none, some "doc"⟩
    (some "https://yandex.ru/support/market/ru/doc") (by decide)

/-! ### C2: HTML escaping -/

/-- A list is a `isPrefixOf` any extension of itself. -/
theorem isPrefixOf_append (p r : List Char) : p.isPrefixOf (p ++ r) = true := by
  induction p with
  | nil => simp [List.isPrefixOf]
  | cons c t ih => simp [List.isPrefixOf, ih]

/-- Any known entity body at the front of a list is detected. -/
theorem entityAt_append (e r : List Char) (he : e ∈ entityTails) :
    entityAt (e ++ r) = true :=
  List.any_eq_true.mpr ⟨e, he, isPrefixOf_append e r⟩

/-- A non-ampersand head preserves `ampOk`. -/
theorem ampOk_cons_ne (c : Char) (r : List Char) (hc : c ≠ '&')
    (h : ampOk r = true) : ampOk (c :: r) = true := by
  show ((if c = '&' then entityAt r else true) && ampOk r) = true
  rw [if_neg hc, h]
  rfl

/-- An ampersand head followed by an entity body preserves `ampOk`. -/
theorem ampOk_amp_cons (r : List Char) (he : entityAt r = true)
    (h : ampOk r = true) : ampOk ('&' :: r) = true := by
  show ((if ('&' : Char) = '&' then entityAt r else true) && ampOk r) = true
  rw [if_pos rfl, he, h]
  rfl

/-- Prepending ampersand-free characters preserves `ampOk`. -/
theorem ampOk_append_no_amp (l r : List Char) (hl : ∀ x ∈ l, x ≠ '&')
    (h : ampOk r = true) : ampOk (l ++ r) = true := by
  induction l with
  | nil => simp only [List.nil_append]; exact h
  | cons c t ih =>
    exact ampOk_cons_ne c (t ++ r) (hl c (by simp))
      (ih (fun x hx => hl x (by simp [hx])))

/-- Appending one escaped character keeps every ampersand entity-encoded. -/
theorem ampOk_escChar (c : Char) (r : List Char) (h : ampOk r = true) :
    ampOk ((escChar c).data ++ r) = true := by
  by_cases h1 : c = '&'
  · subst h1
    show ampOk ('&' :: (['a', 'm', 'p', ';'] ++ r)) = true
    exact ampOk_amp_cons _ (entityAt_append _ r (by decide))
      (ampOk_append_no_amp _ r (by decide) h)
  by_cases h2 : c = '<'
  · subst h2
    show ampOk ('&' :: (['l', 't', ';'] ++ r)) = true
    exact ampOk_amp_cons _ (entityAt_append _ r (by decide))
      (ampOk_append_no_amp _ r (by decide) h)
  by_cases h3 : c = '>'
  · subst h3
    show ampOk ('&' :: (['g', 't', ';'] ++ r)) = true
    exact ampOk_amp_cons _ (entityAt_append _ r (by decide))
      (ampOk_append_no_amp _ r (by decide) h)
  by_cases h4 : c = '"'
  · subst h4
    show ampOk ('&' :: (['q', 'u', 'o', 't', ';'] ++ r)) = true
    exact ampOk_amp_cons _ (entityAt_append _ r (by decide))
      (ampOk_append_no_amp _ r (by decide) h)
  by_cases h5 : c = Char.ofNat 39
  · subst h5
    show ampOk ('&' :: (['#', '0', '3', '9', ';'] ++ r)) = true
    exact ampOk_amp_cons _ (entityAt_append _ r (by decide))
      (ampOk_append_no_amp _ r (by decide) h)
  have hesc : escChar c = String.singleton c := by
    simp [escChar, h1, h2, h3, h4, h5]
  rw [hesc]
  exact ampOk_cons_ne c r h1 h

/-- Appending one DOM-escaped character keeps every ampersand
entity-encoded. -/
theorem ampOk_escCharDom (c : Char) (r : List Char) (h : ampOk r = true) :
    ampOk ((escCharDom c).data ++ r) = true := by
  by_cases h1 : c = '&'
  · subst h1
    show ampOk ('&' :: (['a', 'm', 'p', ';'] ++ r)) = true
    exact ampOk_amp_cons _ (entityAt_append _ r (by decide))
      (ampOk_append_no_amp _ r (by decide) h)
  by_cases h2 : c = Char.ofNat 160
  · subst h2
    show ampOk ('&' :: (['n', 'b', 's', 'p', ';'] ++ r)) = true
    exact ampOk_amp_cons _ (entityAt_append _ r (by decide))
      (ampOk_append_no_amp _ r (by decide) h)
  by_cases h3 : c = '<'
  · subst h3
    show ampOk ('&' :: (['l', 't', ';'] ++ r)) = true
    exact ampOk_amp_cons _ (entityAt_append _ r (by decide))
      (ampOk_append_no_amp _ r (by decide) h)
  by_cases h4 : c = '>'
  · subst h4
    show ampOk ('&' :: (['g', 't', ';'] ++ r)) = true
    exact ampOk_amp_cons _ (entityAt_append _ r (by decide))
      (ampOk_append_no_amp _ r (by decide) h)
  have hesc : escCharDom c = String.singleton c := by
    simp [escCharDom, h1, h2, h3, h4]
  rw [hesc]
  exact ampOk_cons_ne c r h1 h

/-- No character produced by the inline escaper is `<`, `>` or `"`. -/
theorem escChar_mem (c x : Char) (hx : x ∈ (escChar c).data) :
    x ≠ '<' ∧ x ≠ '>' ∧ x ≠ '"' := by
  by_cases h1 : c = '&'
  · subst h1
    exact (by decide : ∀ y ∈ ['&', 'a', 'm', 'p', ';'],
      y ≠ '<' ∧ y ≠ '>' ∧ y ≠ '"') x hx
  by_cases h2 : c = '<'
  · subst h2
    exact (by decide : ∀ y ∈ ['&', 'l', 't', ';'],
      y ≠ '<' ∧ y ≠ '>' ∧ y ≠ '"') x hx
  by_cases h3 : c = '>'
  · subst h3
    exact (by decide : ∀ y ∈ ['&', 'g', 't', ';'],
      y ≠ '<' ∧ y ≠ '>' ∧ y ≠ '"') x hx
  by_cases h4 : c = '"'
  · subst h4
    exact (by decide : ∀ y ∈ ['&', 'q', 'u', 'o', 't', ';'],
      y ≠ '<' ∧ y ≠ '>' ∧ y ≠ '"') x hx
  by_cases h5 : c = Char.ofNat 39
  · subst h5
    exact (by decide : ∀ y ∈ ['&', '#', '0', '3', '9', ';'],
      y ≠ '<' ∧ y ≠ '>' ∧ y ≠ '"') x hx
  have hesc : escChar c = String.singleton c := by
    simp [escChar, h1, h2, h3, h4, h5]
  rw [hesc] at hx
  have hx' : x = c := List.mem_singleton.mp hx
  subst hx'
  exact ⟨h2, h3, h4⟩

/-- No character produced by the DOM escaper is `<` or `>` (but `"` passes
straight through its default branch). -/
theorem escCharDom_mem (c x : Char) (hx : x ∈ (escCharDom c).data) :
    x ≠ '<' ∧ x ≠ '>' := by
  by_cases h1 : c = '&'
  · subst h1
    exact (by decide : ∀ y ∈ ['&', 'a', 'm', 'p', ';'],
      y ≠ '<' ∧ y ≠ '>') x hx
  by_cases h2 : c = Char.ofNat 160
  · subst h2
    exact (by decide : ∀ y ∈ ['&', 'n', 'b', 's', 'p', ';'],
      y ≠ '<' ∧ y ≠ '>') x hx
  by_cases h3 : c = '<'
  · subst h3
    exact (by decide : ∀ y ∈ ['&', 'l', 't', ';'],
      y ≠ '<' ∧ y ≠ '>') x hx
  by_cases h4 : c = '>'
  · subst h4
    exact (by decide : ∀ y ∈ ['&', 'g', 't', ';'],
      y ≠ '<' ∧ y ≠ '>') x hx
  have hesc : escCharDom c = String.singleton c := by
    simp [escCharDom, h1, h2, h3, h4]
  rw [hesc] at hx
  have hx' : x = c := List.mem_singleton.mp hx
  subst hx'
  exact ⟨h3, h4⟩

/-- The inline escaper introduces no newline. -/
theorem escChar_no_newline (c x : Char) (hc : c ≠ '\n')
    (hx : x ∈ (escChar c).data) : x ≠ '\n' := by
  by_cases h1 : c = '&'
  · subst h1
    exact (by decide : ∀ y ∈ ['&', 'a', 'm', 'p', ';'], y ≠ '\n') x hx
  by_cases h2 : c = '<'
  · subst h2
    exact (by decide : ∀ y ∈ ['&', 'l', 't', ';'], y ≠ '\n') x hx
  by_cases h3 : c = '>'
  · subst h3
    exact (by decide : ∀ y ∈ ['&', 'g', 't', ';'], y ≠ '\n') x hx
  by_cases h4 : c = '"'
  · subst h4
    exact (by decide : ∀ y ∈ ['&', 'q', 'u', 'o', 't', ';'], y ≠ '\n') x hx
  by_cases h5 : c = Char.ofNat 39
  · subst h5
    exact (by decide : ∀ y ∈ ['&', '#', '0', '3', '9', ';'], y ≠ '\n') x hx
  have hesc : escChar c = String.singleton c := by
    simp [escChar, h1, h2, h3, h4, h5]
  rw [hesc] at hx
  have hx' : x = c := List.mem_singleton.mp hx
  subst hx'
  exact hc

/-- No character of inline-escaped output is `<`, `>` or `"`. -/
theorem escapeHtmlList_mem (l : List Char) (x : Char)
    (hx : x ∈ escapeHtmlList l) : x ≠ '<' ∧ x ≠ '>' ∧ x ≠ '"' := by
  rw [escapeHtmlList] at hx
  obtain ⟨c, hc, hxc⟩ := List.mem_flatMap.mp hx
  exact escChar_mem c x hxc

/-- No character of DOM-escaped output is `<` or `>`. -/
theorem escapeHtmlDomList_mem (l : List Char) (x : Char)
    (hx : x ∈ escapeHtmlDomList l) : x ≠ '<' ∧ x ≠ '>' := by
  rw [escapeHtmlDomList] at hx
  obtain ⟨c, hc, hxc⟩ := List.mem_flatMap.mp hx
  exact escCharDom_mem c x hxc

/-- Every ampersand in inline-escaped output starts an entity. -/
theorem ampOk_escapeHtmlList (l : List Char) :
    ampOk (escapeHtmlList l) = true := by
  induction l with
  | nil => rfl
  | cons c t ih =>
    have he : escapeHtmlList (c :: t) = (escChar c).data ++ escapeHtmlList t := by
      simp [escapeHtmlList]
    rw [he]
    exact ampOk_escChar c _ ih

/-- Every ampersand in DOM-escaped output starts an entity. -/
theorem ampOk_escapeHtmlDomList (l : List Char) :
    ampOk (escapeHtmlDomList l) = true := by
  induction l with
  | nil => rfl
  | cons c t ih =>
    have he : escapeHtmlDomList (c :: t) =
        (escCharDom c).data ++ escapeHtmlDomList t := by
      simp [escapeHtmlDomList]
    rw [he]
    exact ampOk_escCharDom c _ ih

/-- On newline-free input the newline fold leaves the string unchanged. -/
theorem fmtNl_foldr_no_newline (l : List Char) (h : ∀ c ∈ l, c ≠ '\n') :
    l.foldr fmtNlStep (0, "") = (0, String.mk l) := by
  induction l with
  | nil => rfl
  | cons c t ih =>
    have hc : c ≠ '\n' := h c (by simp)
    have ih' := ih (fun x hx => h x (by simp [hx]))
    simp only [List.foldr_cons, ih', fmtNlStep, if_neg hc]
    rfl

/-- On newline-free input the two newline replaces are the identity. -/
theorem fmtNl_no_newline (l : List Char) (h : ∀ c ∈ l, c ≠ '\n') :
    fmtNl l = String.mk l := by
  unfold fmtNl
  rw [fmtNl_foldr_no_newline l h]
  rfl

/-- Characters of the break markup are among the fixed markup characters. -/
theorem emitBreaks_mem (n : ℕ) (x : Char) (hx : x ∈ (emitBreaks n).data) :
    x ∈ ['<', 'b', 'r', '>', '/', 'p'] := by
  unfold emitBreaks at hx
  by_cases h0 : n = 0
  · rw [if_pos h0] at hx
    simp at hx
  rw [if_neg h0] at hx
  by_cases h1 : n = 1
  · rw [if_pos h1] at hx
    exact (by decide : ∀ y ∈ "<br>".data, y ∈ ['<', 'b', 'r', '>', '/', 'p']) x hx
  rw [if_neg h1] at hx
  exact (by decide : ∀ y ∈ "</p><p>".data, y ∈ ['<', 'b', 'r', '>', '/', 'p']) x hx

/-- `(a ++ b).data` is the concatenation of the data lists. -/
theorem string_data_append (a b : String) : (a ++ b).data = a.data ++ b.data := rfl

/-- Characters accumulated by the newline fold come from the input or from
the fixed markup characters. -/
theorem fmtNl_foldr_mem (l : List Char) (x : Char)
    (hx : x ∈ (l.foldr fmtNlStep (0, "")).2.data) :
    x ∈ l ∨ x ∈ ['<', 'b', 'r', '>', '/', 'p'] := by
  induction l with
  | nil => simp at hx
  | cons c t ih =>
    rw [List.foldr_cons] at hx
    by_cases hc : c = '\n'
    · rw [fmtNlStep, if_pos hc] at hx
      rcases ih hx with h | h
      · exact .inl (by simp [h])
      · exact .inr h
    · rw [fmtNlStep, if_neg hc] at hx
      rw [string_data_append, string_data_append] at hx
      simp only [List.mem_append] at hx
      rcases hx with (hx | hx) | hx
      · have hx' : x ∈ [c] := hx
        exact .inl (by simp [List.mem_singleton.mp hx'])
      · exact .inr (emitBreaks_mem _ x hx)
      · rcases ih hx with h | h
        · exact .inl (by simp [h])
        · exact .inr h

/-- Characters of the newline-formatted string come from the input or from
the fixed markup characters. -/
theorem fmtNl_mem (l : List Char) (x : Char) (hx : x ∈ (fmtNl l).data) :
    x ∈ l ∨ x ∈ ['<', 'b', 'r', '>', '/', 'p'] := by
  unfold fmtNl at hx
  rw [string_data_append] at hx
  rcases List.mem_append.mp hx with hx | hx
  · exact .inr (emitBreaks_mem _ x hx)
  · exact fmtNl_foldr_mem l x hx

/-- A list without `<` cannot contain the paragraph-break token. -/
theorem jsIncludes_pp_false (l : List Char) (h : ('<' : Char) ∉ l) :
    jsIncludes "</p><p>".data l = false := by
  unfold jsIncludes
  rw [List.any_eq_false]
  intro t ht
  intro hpre
  have hp : "</p><p>".data <+: t := List.isPrefixOf_iff_prefix.mp hpre
  have hsub : t ⊆ l := ((List.mem_tails t l).mp ht).subset
  exact h (hsub (hp.subset (by decide)))

/-- On newline-free input `formatText` is exactly the inline escaper (no
paragraph wrapping, no break markup). -/
theorem formatText_no_newline (s : String) (h : ∀ c ∈ s.data, c ≠ '\n') :
    formatText s = escapeHtmlInline s := by
  have hnl : ∀ c ∈ (escapeHtmlInline s).data, c ≠ '\n' := by
    intro c hc
    obtain ⟨c', hc', hcc⟩ := List.mem_flatMap.mp hc
    exact escChar_no_newline c' c (h c' hc') hcc
  have hfmt : fmtNl (escapeHtmlInline s).data = String.mk (escapeHtmlInline s).data :=
    fmtNl_no_newline _ hnl
  have hlt : ('<' : Char) ∉ (escapeHtmlInline s).data := fun hc =>
    (escapeHtmlList_mem s.data '<' hc).1 rfl
  simp only [formatText, hfmt]
  rw [jsIncludes_pp_false _ hlt]
  rfl

/-- `formatText` output never contains a raw double quote. -/
theorem formatText_no_quot (s : String) (x : Char)
    (hx : x ∈ (formatText s).data) : x ≠ '"' := by
  have key : ∀ y, y ∈ (fmtNl (escapeHtmlInline s).data).data → y ≠ '"' := by
    intro y hy
    rcases fmtNl_mem _ y hy with h | h
    · exact (escapeHtmlList_mem s.data y h).2.2
    · exact (by decide : ∀ z ∈ ['<', 'b', 'r', '>', '/', 'p'], z ≠ '"') y h
  simp only [formatText] at hx
  by_cases hinc :
      jsIncludes "</p><p>".data (fmtNl (escapeHtmlInline s).data).data = true
  · rw [if_pos hinc] at hx
    rw [string_data_append, string_data_append] at hx
    simp only [List.mem_append] at hx
    rcases hx with (hx | hx) | hx
    · exact (by decide : ∀ z ∈ "<p>".data, z ≠ '"') x hx
    · exact key x hx
    · exact (by decide : ∀ z ∈ "</p>".data, z ≠ '"') x hx
  · rw [if_neg hinc] at hx
    exact key x hx

/-- `String.join` concatenates the data lists. -/
theorem string_join_data (l : List String) :
    (String.join l).data = (l.map String.data).flatten := by
  have key : ∀ (l : List String) (acc : String),
      (List.foldl (· ++ ·) acc l).data = acc.data ++ (l.map String.data).flatten := by
    intro l
    induction l with
    | nil => intro acc; simp
    | cons s t ih =>
      intro acc
      simp only [List.foldl_cons, ih, List.map_cons, List.flatten_cons,
        string_data_append, List.append_assoc]
  have hkey := key l ""
  simp only [String.data] at hkey
  simp at hkey
  exact hkey

/-- A character of a joined string belongs to one of the pieces. -/
theorem mem_string_join (l : List String) (x : Char)
    (hx : x ∈ (String.join l).data) : ∃ s ∈ l, x ∈ s.data := by
  rw [string_join_data] at hx
  obtain ⟨t, ht, hxt⟩ := List.mem_flatten.mp hx
  obtain ⟨s, hs, rfl⟩ := List.mem_map.mp ht
  exact ⟨s, hs, hxt⟩

/-- Characters of the per-paragraph `<br>` replace come from the paragraph
or from the `<br>` token. -/
theorem nlToBr_mem (t : String) (x : Char) (hx : x ∈ (nlToBr t).data) :
    x ∈ t.data ∨ x ∈ ['<', 'b', 'r', '>'] := by
  unfold nlToBr at hx
  obtain ⟨s, hs, hxs⟩ := mem_string_join _ x hx
  obtain ⟨c, hc, rfl⟩ := List.mem_map.mp hs
  by_cases hcn : c = '\n'
  · rw [if_pos hcn] at hxs
    exact .inr ((by decide : ∀ y ∈ "<br>".data, y ∈ ['<', 'b', 'r', '>']) x hxs)
  · rw [if_neg hcn] at hxs
    have hx' : x ∈ [c] := hxs
    exact .inl (List.mem_singleton.mp hx' ▸ hc)

/-- Trimming only removes characters. -/
theorem jsTrim_mem (s : String) (x : Char) (hx : x ∈ (jsTrim s).data) :
    x ∈ s.data := by
  unfold jsTrim at hx
  have h1 : x ∈ (s.data.dropWhile Char.isWhitespace).reverse.dropWhile
      Char.isWhitespace := List.mem_reverse.mp hx
  have h2 : x ∈ (s.data.dropWhile Char.isWhitespace).reverse :=
    (List.dropWhile_sublist _).subset h1
  have h3 : x ∈ s.data.dropWhile Char.isWhitespace := List.mem_reverse.mp h2
  exact (List.dropWhile_sublist _).subset h3

/-- Splitting on double newlines only regroups characters. -/
theorem splitTwoNl_subset :
    ∀ (l : List Char), ∀ p ∈ splitTwoNl l, ∀ x ∈ p, x ∈ l := by
  have key : ∀ (n : ℕ) (l : List Char), l.length ≤ n →
      ∀ p ∈ splitTwoNl l, ∀ x ∈ p, x ∈ l := by
    intro n
    induction n with
    | zero =>
      intro l hl p hp x hx
      have hnil : l = [] := List.length_eq_zero.mp (Nat.le_zero.mp hl)
      subst hnil
      simp [splitTwoNl] at hp
      subst hp
      simp at hx
    | succ n ih =>
      intro l hl p hp x hx
      rcases l with _ | ⟨c, _ | ⟨c2, rest⟩⟩
      · simp [splitTwoNl] at hp
        subst hp
        simp at hx
      · simp [splitTwoNl] at hp
        subst hp
        exact hx
      · rw [splitTwoNl] at hp
        by_cases h2 : c = '\n' ∧ c2 = '\n'
        · rw [if_pos h2] at hp
          rcases List.mem_cons.mp hp with rfl | hp
          · simp at hx
          · have hlen : rest.length ≤ n := by
              simp only [List.length_cons] at hl
              omega
            have := ih rest hlen p hp x hx
            simp [this]
        · rw [if_neg h2] at hp
          have hlen : (c2 :: rest).length ≤ n := by
            simp only [List.length_cons] at hl ⊢
            omega
          rcases hmatch : splitTwoNl (c2 :: rest) with _ | ⟨hd, tl⟩
          · rw [hmatch] at hp
            simp at hp
            subst hp
            rcases List.mem_singleton.mp hx with rfl
            simp
          · rw [hmatch] at hp
            rcases List.mem_cons.mp hp with rfl | hp
            · rcases List.mem_cons.mp hx with rfl | hx
              · simp
              · have hhd : hd ∈ splitTwoNl (c2 :: rest) := by
                  rw [hmatch]
                  exact List.mem_cons_self hd tl
                have := ih (c2 :: rest) hlen hd hhd x hx
                simp [this]
            · have hpt : p ∈ splitTwoNl (c2 :: rest) := by
                rw [hmatch]
                exact List.mem_cons_of_mem _ hp
              have := ih (c2 :: rest) hlen p hpt x hx
              simp [this]
  intro l
  exact key l.length l le_rfl

/-- `formatSummary` output never contains a raw double quote. -/
theorem formatSummary_no_quot (s : String) (x : Char)
    (hx : x ∈ (formatSummary s).data) : x ≠ '"' := by
  simp only [formatSummary] at hx
  obtain ⟨t, ht, hxt⟩ := mem_string_join _ x hx
  obtain ⟨p, hp, rfl⟩ := List.mem_map.mp ht
  have hp' := List.mem_of_mem_filter hp
  obtain ⟨pl, hpl, rfl⟩ := List.mem_map.mp hp'
  rw [string_data_append, string_data_append] at hxt
  simp only [List.mem_append] at hxt
  rcases hxt with (h | h) | h
  · exact (by decide : ∀ z ∈ "<p>".data, z ≠ '"') x h
  · rcases nlToBr_mem _ x h with h | h
    · have h1 : x ∈ pl := jsTrim_mem _ x h
      have h2 : x ∈ (escapeHtmlInline s).data :=
        splitTwoNl_subset (escapeHtmlInline s).data pl hpl x h1
      exact (escapeHtmlList_mem s.data x h2).2.2
    · exact (by decide : ∀ z ∈ ['<', 'b', 'r', '>'], z ≠ '"') x h
  · exact (by decide : ∀ z ∈ "</p>".data, z ≠ '"') x h

/-- C2 (amended).  HTML escaping: the inline escaper used for result body
text and summaries emits no raw `<`, `>` or `"` and every `&` it emits
starts a character entity; whole `formatText`/`formatSummary` outputs never
contain a raw double quote (their markup characters come only from the
fixed `<p>`/`<br>` tokens), and newline-free body text is exactly the
escaped input.  The DOM-based `escapeHtml` used for breadcrumb segments
encodes only `&`, `<` and `>`: double quotes pass through unescaped, so the
claim as stated fails for breadcrumb segments (see the counterexample). -/
theorem c2_escaping :
    (∀ s : String, ∀ c ∈ (escapeHtmlInline s).data,
      c ≠ '<' ∧ c ≠ '>' ∧ c ≠ '"') ∧
    (∀ s : String, ampOk (escapeHtmlInline s).data = true) ∧
    (∀ s : String, (∀ c ∈ s.data, c ≠ '\n') →
      formatText s = escapeHtmlInline s) ∧
    (∀ s : String, ∀ c ∈ (formatText s).data, c ≠ '"') ∧
    (∀ s : String, ∀ c ∈ (formatSummary s).data, c ≠ '"') ∧
    (∀ s : String, ∀ c ∈ (escapeHtml s).data, c ≠ '<' ∧ c ≠ '>') ∧
    (∀ s : String, ampOk (escapeHtml s).data = true) :=
  ⟨fun s c hc => escapeHtmlList_mem s.data c hc,
   fun s => ampOk_escapeHtmlList s.data,
   formatText_no_newline,
   formatText_no_quot,
   formatSummary_no_quot,
   fun s c hc => escapeHtmlDomList_mem s.data c hc,
   fun s => ampOk_escapeHtmlDomList s.data⟩

theorem c2_escaping_witness :
    formatText "цена&qty=\"7\"" = escapeHtmlInline "цена&qty=\"7\"" :=
  c2_escaping.2.2.1 "цена&qty=\"7\"" (by decide)

/-- C2, counterexample to the claim as stated: the DOM-based escaper leaves
a double quote unescaped, so a breadcrumb heading containing `"` is
inserted into the span markup with the raw quote, while the inline escaper
used for body text does encode it. -/
theorem c2_counterexample :
    escapeHtml "\"" = "\"" ∧
    generateBreadcrumbs (some ⟨some "x\"y", none, none, none⟩) none =
      some "<span class=\"breadcrumb-item breadcrumb-h1\">x\"y</span>" ∧
    escapeHtmlInline "\"" = "&quot;" := by
  refine ⟨by decide, by decide, by decide⟩
